import Mathlib

/-!
Shallow embedding of the AOI extraction / bounds-normalization core of the
`Techfcf/sentnel` front end (src/src/App.jsx and the near-duplicate revisions
src/unnamed/part_000 .. part_002), together with proofs about it.

Coordinates are modelled as rationals (ℚ).  JavaScript's `Infinity` and
`-Infinity`, which seed the bounding-box reduce, are modelled by the extended
type `XR` below, with `Math.min` / `Math.max` extended accordingly.
-/

/-- Extended coordinate value: a finite rational, `Infinity`, or `-Infinity`
(the seeds of the bounding-box reduce in `handleDrawCreate`). -/
inductive XR where
  | ninf : XR
  | fin (q : ℚ) : XR
  | inf : XR
deriving DecidableEq

/-- JavaScript `Math.min` on extended values (`Infinity` is the identity,
`-Infinity` absorbs). -/
def XR.min : XR → XR → XR
  | .ninf, .ninf => .ninf
  | .ninf, .fin _ => .ninf
  | .ninf, .inf => .ninf
  | .fin _, .ninf => .ninf
  | .fin a, .fin b => .fin (Min.min a b)
  | .fin a, .inf => .fin a
  | .inf, .ninf => .ninf
  | .inf, .fin b => .fin b
  | .inf, .inf => .inf

/-- JavaScript `Math.max` on extended values (`-Infinity` is the identity,
`Infinity` absorbs). -/
def XR.max : XR → XR → XR
  | .ninf, .ninf => .ninf
  | .ninf, .fin b => .fin b
  | .ninf, .inf => .inf
  | .fin a, .ninf => .fin a
  | .fin a, .fin b => .fin (Max.max a b)
  | .fin _, .inf => .inf
  | .inf, .ninf => .inf
  | .inf, .fin _ => .inf
  | .inf, .inf => .inf

/-- The bounding box held in the `aoiBounds` React state:
`((minLat, minLng), (maxLat, maxLng))`, latitude first. -/
abbrev BBox := (XR × XR) × (XR × XR)

/-- One step of the `reduce` in `handleDrawCreate` (App.jsx lines 118-127):
the accumulator is `((minLng, minLat), (maxLng, maxLat))` and a coordinate is
`(lng, lat)`. -/
def boundsStep (mm : (XR × XR) × (XR × XR)) (c : ℚ × ℚ) : (XR × XR) × (XR × XR) :=
  ((XR.min mm.1.1 (XR.fin c.1), XR.min mm.1.2 (XR.fin c.2)),
   (XR.max mm.2.1 (XR.fin c.1), XR.max mm.2.2 (XR.fin c.2)))

/-- The full bounds computation of `handleDrawCreate` (App.jsx lines 118-132):
fold `boundsStep` over the ring seeded at `((Infinity, Infinity),
(-Infinity, -Infinity))`, then emit `[[minLat, minLng], [maxLat, maxLng]]`
(the lat/lng swap performed by `setAoiBounds`). -/
def aoiBoundsOfRing (ring : List (ℚ × ℚ)) : BBox :=
  let r := ring.foldl boundsStep ((XR.inf, XR.inf), (XR.ninf, XR.ninf))
  ((r.1.2, r.1.1), (r.2.2, r.2.1))

/-- Rational-valued twin of `boundsStep`, used once the accumulator has left
the infinite seeds. -/
def stepQ (mm : (ℚ × ℚ) × (ℚ × ℚ)) (c : ℚ × ℚ) : (ℚ × ℚ) × (ℚ × ℚ) :=
  ((Min.min mm.1.1 c.1, Min.min mm.1.2 c.2), (Max.max mm.2.1 c.1, Max.max mm.2.2 c.2))

/-- A GeoJSON geometry as used by the app: `shape.geometry.coordinates` is a
list of rings, each ring a list of `(lng, lat)` pairs. -/
structure Geometry where
  coordinates : List (List (ℚ × ℚ))
deriving DecidableEq

/-- One entry of the static evalscript catalog (`assets/evalscripts.json`). -/
structure EvalscriptEntry where
  name : String
  image : String
  script : String
deriving DecidableEq, Inhabited

/-- The React state hooks of `App` (App.jsx lines 30-39) that the core logic
reads or writes: `imageUrl`, `aoiBounds`, `startDate`, `endDate`, `geojson`,
`selectedEvalscript`, `accessToken`.  Dates are carried as their ISO strings. -/
structure SessionState where
  imageUrl : String
  aoiBounds : Option BBox
  startDate : String
  endDate : String
  geojson : Option Geometry
  selectedEvalscript : Nat
  accessToken : String
deriving DecidableEq

/-- The initial state of the hooks (App.jsx lines 30-39): empty image URL,
no AOI, the default date range, catalog index 0, empty token. -/
def initialState : SessionState :=
  { imageUrl := "", aoiBounds := none, startDate := "2023-10-01", endDate := "2023-10-31",
    geojson := none, selectedEvalscript := 0, accessToken := "" }

/-- The `handleDrawCreate` handler (App.jsx lines 113-134): reduce the outer
ring (`coordinates[0]`) of the drawn shape to a bounding box, store it in
`aoiBounds` (latitude first) and store the shape in `geojson`. -/
def handleDrawCreate (s : SessionState) (shape : Geometry) : SessionState :=
  { s with aoiBounds := some (aoiBoundsOfRing (shape.coordinates.headD [])),
           geojson := some shape }

/-- The JSON body POSTed to the process endpoint by `getImage`
(App.jsx lines 64-98), together with the request URL and the
`Authorization` header value. -/
structure ProcessRequest where
  url : String
  bearer : String
  geometry : Geometry
  crs : String
  timeFrom : String
  timeTo : String
  width : Nat
  height : Nat
  evalscript : String
deriving DecidableEq

/-- Request construction in `getImage` (App.jsx lines 64-98): fixed endpoint,
`Bearer` header, the AOI geometry with the fixed CRS declaration, the selected
date range, a 512x512 output, and the selected catalog entry's script. -/
def buildProcessRequest (catalog : List EvalscriptEntry) (s : SessionState) (g : Geometry)
    (bearerToken : String) : ProcessRequest :=
  { url := "https://services.sentinel-hub.com/api/v1/process"
    bearer := "Bearer " ++ bearerToken
    geometry := g
    crs := "http://www.opengis.net/def/crs/OGC/1.3/CRS84"
    timeFrom := s.startDate
    timeTo := s.endDate
    width := 512
    height := 512
    evalscript := (catalog.getD s.selectedEvalscript default).script }

/-- What the dispatch phase of `getImage` does: either no transport call at
all (the guard returned early) or exactly one POST with the given payload. -/
inductive GetImageDispatch where
  | noCall : GetImageDispatch
  | call (r : ProcessRequest) : GetImageDispatch
deriving DecidableEq

/-- The transport calls a dispatch issues: none for `noCall`, one for `call`. -/
def dispatchCalls : GetImageDispatch → List ProcessRequest
  | .noCall => []
  | .call r => [r]

/-- Dispatch phase of `getImage` (App.jsx lines 57-99): if `geojson` is null
or `accessToken` is empty (falsy), log an error and return without any fetch;
otherwise issue the POST built from the current state. -/
def getImage (catalog : List EvalscriptEntry) (s : SessionState) : GetImageDispatch :=
  match s.geojson with
  | none => .noCall
  | some g => if s.accessToken = "" then .noCall
              else .call (buildProcessRequest catalog s g s.accessToken)

/-- Outcome of the fetch as observed by `getImage`'s continuation: the fetch
threw (network error), or a response arrived with the given `ok` flag; on an
ok response the blob is turned into an object URL, carried here as a string. -/
inductive FetchOutcome where
  | netError : FetchOutcome
  | response (ok : Bool) (blobUrl : String) : FetchOutcome
deriving DecidableEq

/-- Completion phase of `getImage` (App.jsx lines 101-110), applied to the
React state current at completion time: only a successful response mutates
state, and it sets `imageUrl` alone (`setImageUrl`); a thrown error or a
non-ok status is caught and changes nothing. -/
def applyFetchOutcome (s : SessionState) (o : FetchOutcome) : SessionState :=
  match o with
  | .response true u => { s with imageUrl := u }
  | .response false _ => s
  | .netError => s

/-- A whole `getImage` invocation run against a single state: the guard is
evaluated, and if a call was made the outcome is applied. -/
def getImageRun (catalog : List EvalscriptEntry) (s : SessionState) (o : FetchOutcome) :
    SessionState :=
  match getImage catalog s with
  | .noCall => s
  | .call _ => applyFetchOutcome s o

/-- The failure cases of a `getImage` invocation (App.jsx lines 57-110):
the guard returned early (missing AOI or missing token), the fetch threw,
or the response status was not ok. -/
def fetchFailed (catalog : List EvalscriptEntry) (s : SessionState) (o : FetchOutcome) : Prop :=
  getImage catalog s = .noCall ∨ o = .netError ∨ ∃ u, o = .response false u

/-- The `ImageLayer` component (App.jsx lines 18-27): renders an overlay at
the `aoiBounds` prop if and only if both `imageUrl` and `aoiBounds` are
truthy; the overlay is `(url, bounds)`. -/
def ImageLayer (imageUrl : String) (aoiBounds : Option BBox) : Option (String × BBox) :=
  if imageUrl = "" then none
  else match aoiBounds with
       | none => none
       | some b => some (imageUrl, b)

/-- The overlay currently displayed for a state: `ImageLayer` applied to the
current `imageUrl` and `aoiBounds` props (App.jsx line 290). -/
def displayedOverlay (s : SessionState) : Option (String × BBox) :=
  ImageLayer s.imageUrl s.aoiBounds

/-- part_001 revision, `getToken` result: JavaScript string coercion of a
possibly-undefined token (`"Bearer " + token` yields `"Bearer undefined"`
when `getToken`'s catch swallowed the failure and returned undefined). -/
def jsStringOfUndef : Option String → String
  | none => "undefined"
  | some t => t

/-- part_001 revision, `getImage` (part_001 lines 59-114): the guard checks
only `geojson`; the token is fetched per request by `getToken` (part_001
lines 43-57), whose catch swallows any failure and returns undefined, and the
POST is issued regardless, with `Authorization: "Bearer " + token`.
(`accessToken` in the state is unused by this revision.) -/
def getImage001 (catalog : List EvalscriptEntry) (s : SessionState)
    (tokenResult : Option String) : GetImageDispatch :=
  match s.geojson with
  | none => .noCall
  | some g => .call (buildProcessRequest catalog s g (jsStringOfUndef tokenResult))

/-- A Leaflet `LatLngBounds` as returned by `getBounds()` on a parsed layer. -/
structure LB where
  swLat : ℚ
  swLng : ℚ
  neLat : ℚ
  neLng : ℚ
deriving DecidableEq, Inhabited

/-- Leaflet `LatLngBounds.extend(other)`: enlarge the bounds to include the
other bounds (componentwise min of southwest, max of northeast). -/
def LB.extend (a b : LB) : LB :=
  ⟨Min.min a.swLat b.swLat, Min.min a.swLng b.swLng,
   Max.max a.neLat b.neLat, Max.max a.neLng b.neLng⟩

/-- JavaScript `String.prototype.endsWith(suffix)`, modelled structurally on
the character list so that it evaluates by kernel reduction. -/
def strEndsWith (s suff : String) : Bool :=
  if suff.data.length ≤ s.data.length then
    s.data.drop (s.data.length - suff.data.length) == suff.data
  else false

/-- Per-entry work of the archive channel (App.jsx lines 167-182), for one
ZIP entry `(filename, text)`: names ending `.kml` are parsed by the KML
collaborator (`omnivore.kml.parseString`, total — it yields a layer whose
bounds `parseKmlBounds` models); names ending `.geojson` or `.json` go
through `JSON.parse` then `L.geoJSON(...).getBounds()`, modelled by the
fallible collaborator `parseGeoJsonBounds` (`none` = `JSON.parse` threw, so
the entry's promise rejects); every other entry resolves to `null`. -/
def zipEntryBounds (parseKmlBounds : String → LB) (parseGeoJsonBounds : String → Option LB)
    (e : String × String) : Except Unit (Option LB) :=
  if strEndsWith e.1 ".kml" then .ok (some (parseKmlBounds e.2))
  else if strEndsWith e.1 ".geojson" || strEndsWith e.1 ".json" then
    match parseGeoJsonBounds e.2 with
    | none => .error ()
    | some b => .ok (some b)
  else .ok none

/-- One join step of `Promise.all`: an entry's result is prepended to the
results of the remaining entries, and a rejection on either side rejects. -/
def zipJoinStep (r : Except Unit (Option LB)) (acc : Except Unit (List (Option LB))) :
    Except Unit (List (Option LB)) :=
  match r, acc with
  | .error u, _ => .error u
  | .ok _, .error u => .error u
  | .ok b, .ok bs => .ok (b :: bs)

/-- `Promise.all(promises)` over the per-entry promises (App.jsx line 184),
in the encounter order of the archive's entry listing: the join resolves to
the list of per-entry results, and rejects if any entry's promise rejects. -/
def zipPromiseAll (pk : String → LB) (pj : String → Option LB)
    (entries : List (String × String)) : Except Unit (List (Option LB)) :=
  entries.foldr (fun e acc => zipJoinStep (zipEntryBounds pk pj e) acc) (.ok [])

/-- `bounds.reduce((prev, curr) => prev.extend(curr))` applied after
`filter(Boolean)` (App.jsx lines 185-188): the empty list is left as the
(truthy) empty array and later handed to `fitBounds`; otherwise the bounds
are unioned pairwise left to right. -/
inductive ZipResult where
  | err : ZipResult
  | fitEmptyList : ZipResult
  | fitBox (b : LB) : ZipResult
deriving DecidableEq

/-- The `bounds.length > 0` branch of the archive channel (App.jsx
lines 185-195) followed by `if (bounds) fitBounds(bounds)`: an empty filtered
list is truthy in JavaScript, so `fitBounds` is called on the empty array. -/
def reduceZipBounds : List LB → ZipResult
  | [] => .fitEmptyList
  | b :: rest => .fitBox (rest.foldl LB.extend b)

/-- The archive (`application/zip`) branch of `handleFileSubmit` (App.jsx
lines 164-195) run on ZIP entries `(filename, text)`: map every entry through
the per-format logic, join with `Promise.all`, filter out the nulls, union
what remains.  This branch never calls `setGeojson` or `setAoiBounds`, so the
session state is returned untouched in every case; a rejected join makes the
`onload` async function throw, so no `fitBounds` happens (`ZipResult.err`). -/
def handleFileSubmitZip (pk : String → LB) (pj : String → Option LB)
    (entries : List (String × String)) (s : SessionState) : SessionState × ZipResult :=
  match zipPromiseAll pk pj entries with
  | .error _ => (s, .err)
  | .ok arr => (s, reduceZipBounds (arr.filterMap id))

/-- An archive entry name the channel recognizes: `.kml`, `.geojson` or
`.json` (App.jsx lines 169-176). -/
def recognizedName (name : String) : Bool :=
  strEndsWith name ".kml" || strEndsWith name ".geojson" || strEndsWith name ".json"

/-- Spec-side description of a recognized entry's bounds, used to compare the
implementation against the spec's wording: `.kml` entries go to the KML
collaborator, the rest (`.geojson`/`.json`) to the GeoJSON one. -/
def entryBoundsSpec (pk : String → LB) (pj : String → Option LB) (e : String × String) : LB :=
  if strEndsWith e.1 ".kml" then pk e.2 else (pj e.2).getD default

/-- Spec-side description of the per-entry map: the bounds of recognized
entries, in encounter order of the archive's entry listing. -/
def recognizedBoundsList (pk : String → LB) (pj : String → Option LB)
    (entries : List (String × String)) : List LB :=
  (entries.filter (fun e => recognizedName e.1)).map (entryBoundsSpec pk pj)

/-- The per-entry result as an `Option`, for describing a fully successful
`Promise.all`: recognized entries carry their bounds, others `null`. -/
def entryOpt (pk : String → LB) (pj : String → Option LB) (e : String × String) : Option LB :=
  if strEndsWith e.1 ".kml" then some (pk e.2)
  else if strEndsWith e.1 ".geojson" || strEndsWith e.1 ".json" then
    some ((pj e.2).getD default)
  else none

/-- Concrete trace for the display-bounds question: state after drawing the
one-point ring `(0,0)` with a token present. -/
def cexS0 : SessionState :=
  handleDrawCreate { initialState with accessToken := "tok" } ⟨[[((0 : ℚ), (0 : ℚ))]]⟩

/-- The same trace after the AOI is replaced (ring `(5,5)`) while the fetch
dispatched in `cexS0` is still in flight. -/
def cexS1 : SessionState := handleDrawCreate cexS0 ⟨[[((5 : ℚ), (5 : ℚ))]]⟩

/-- The trace after the in-flight fetch completes successfully: the
continuation runs against the state current at completion time (`cexS1`). -/
def cexS2 : SessionState := applyFetchOutcome cexS1 (.response true "blob:img")

theorem foldl_boundsStep_fin (cs : List (ℚ × ℚ)) :
    ∀ mm : (ℚ × ℚ) × (ℚ × ℚ),
      cs.foldl boundsStep ((XR.fin mm.1.1, XR.fin mm.1.2), (XR.fin mm.2.1, XR.fin mm.2.2))
        = ((XR.fin (cs.foldl stepQ mm).1.1, XR.fin (cs.foldl stepQ mm).1.2),
           (XR.fin (cs.foldl stepQ mm).2.1, XR.fin (cs.foldl stepQ mm).2.2)) := by
  induction cs with
  | nil => intro mm; rfl
  | cons c cs ih =>
      intro mm
      have h : boundsStep ((XR.fin mm.1.1, XR.fin mm.1.2), (XR.fin mm.2.1, XR.fin mm.2.2)) c
          = ((XR.fin (stepQ mm c).1.1, XR.fin (stepQ mm c).1.2),
             (XR.fin (stepQ mm c).2.1, XR.fin (stepQ mm c).2.2)) := rfl
      rw [List.foldl_cons, List.foldl_cons, h]
      exact ih (stepQ mm c)

theorem foldl_stepQ_le_init (cs : List (ℚ × ℚ)) :
    ∀ mm : (ℚ × ℚ) × (ℚ × ℚ),
      (cs.foldl stepQ mm).1.1 ≤ mm.1.1 ∧ (cs.foldl stepQ mm).1.2 ≤ mm.1.2 ∧
      mm.2.1 ≤ (cs.foldl stepQ mm).2.1 ∧ mm.2.2 ≤ (cs.foldl stepQ mm).2.2 := by
  induction cs with
  | nil => intro mm; exact ⟨le_refl _, le_refl _, le_refl _, le_refl _⟩
  | cons c cs ih =>
      intro mm
      obtain ⟨h1, h2, h3, h4⟩ := ih (stepQ mm c)
      rw [List.foldl_cons]
      exact ⟨le_trans h1 (min_le_left _ _), le_trans h2 (min_le_left _ _),
             le_trans (le_max_left _ _) h3, le_trans (le_max_left _ _) h4⟩

theorem foldl_stepQ_mem (cs : List (ℚ × ℚ)) :
    ∀ mm : (ℚ × ℚ) × (ℚ × ℚ), ∀ p ∈ cs,
      (cs.foldl stepQ mm).1.1 ≤ p.1 ∧ (cs.foldl stepQ mm).1.2 ≤ p.2 ∧
      p.1 ≤ (cs.foldl stepQ mm).2.1 ∧ p.2 ≤ (cs.foldl stepQ mm).2.2 := by
  induction cs with
  | nil => intro mm p hp; cases hp
  | cons c cs ih =>
      intro mm p hp
      rw [List.foldl_cons]
      rcases List.mem_cons.mp hp with h | h
      · obtain ⟨h1, h2, h3, h4⟩ := foldl_stepQ_le_init cs (stepQ mm c)
        rw [h]
        exact ⟨le_trans h1 (min_le_right _ _), le_trans h2 (min_le_right _ _),
               le_trans (le_max_right _ _) h3, le_trans (le_max_right _ _) h4⟩
      · exact ih (stepQ mm c) p h

theorem foldl_stepQ_sw_le_ne (cs : List (ℚ × ℚ)) :
    ∀ mm : (ℚ × ℚ) × (ℚ × ℚ), mm.1.1 ≤ mm.2.1 → mm.1.2 ≤ mm.2.2 →
      (cs.foldl stepQ mm).1.1 ≤ (cs.foldl stepQ mm).2.1 ∧
      (cs.foldl stepQ mm).1.2 ≤ (cs.foldl stepQ mm).2.2 := by
  induction cs with
  | nil => intro mm h1 h2; exact ⟨h1, h2⟩
  | cons c cs ih =>
      intro mm h1 h2
      rw [List.foldl_cons]
      exact ih (stepQ mm c)
        (le_trans (min_le_left _ _) (le_trans h1 (le_max_left _ _)))
        (le_trans (min_le_left _ _) (le_trans h2 (le_max_left _ _)))

theorem xrMin_right_comm (m : XR) (x y : ℚ) :
    XR.min (XR.min m (XR.fin x)) (XR.fin y) = XR.min (XR.min m (XR.fin y)) (XR.fin x) := by
  cases m with
  | ninf => rfl
  | fin a => simp only [XR.min]; rw [min_right_comm]
  | inf => simp only [XR.min]; rw [min_comm]

theorem xrMax_right_comm (m : XR) (x y : ℚ) :
    XR.max (XR.max m (XR.fin x)) (XR.fin y) = XR.max (XR.max m (XR.fin y)) (XR.fin x) := by
  cases m with
  | ninf => simp only [XR.max]; rw [max_comm]
  | fin a => simp only [XR.max]; rw [max_assoc, max_comm x y, ← max_assoc]
  | inf => rfl

theorem boundsStep_right_comm (mm : (XR × XR) × (XR × XR)) (c d : ℚ × ℚ) :
    boundsStep (boundsStep mm c) d = boundsStep (boundsStep mm d) c := by
  obtain ⟨⟨a, b⟩, ⟨e, f⟩⟩ := mm
  simp only [boundsStep]
  rw [xrMin_right_comm a c.1 d.1, xrMin_right_comm b c.2 d.2,
      xrMax_right_comm e c.1 d.1, xrMax_right_comm f c.2 d.2]

theorem foldl_boundsStep_perm {l1 l2 : List (ℚ × ℚ)} (h : l1.Perm l2) :
    ∀ mm, l1.foldl boundsStep mm = l2.foldl boundsStep mm := by
  induction h with
  | nil => intro mm; rfl
  | cons x _ ih => intro mm; rw [List.foldl_cons, List.foldl_cons]; exact ih _
  | swap x y l =>
      intro mm
      rw [List.foldl_cons, List.foldl_cons, List.foldl_cons, List.foldl_cons,
          boundsStep_right_comm]
  | trans _ _ ih1 ih2 => intro mm; rw [ih1, ih2]

-- Sanity checks on concrete rings.
example : aoiBoundsOfRing [((1 : ℚ), (2 : ℚ)), ((3 : ℚ), (0 : ℚ))]
    = ((XR.fin 0, XR.fin 1), (XR.fin 2, XR.fin 3)) := by decide

example : aoiBoundsOfRing ([] : List (ℚ × ℚ))
    = ((XR.inf, XR.inf), (XR.ninf, XR.ninf)) := by decide

theorem filter_eq_nil_of_none {α : Type} (p : α → Bool) (l : List α)
    (h : ∀ a ∈ l, p a = false) : l.filter p = [] := by
  induction l with
  | nil => rfl
  | cons a as ih =>
    have ha := h a (List.mem_cons_self a as)
    simp [List.filter_cons, ha, ih (fun x hx => h x (List.mem_cons_of_mem _ hx))]

theorem zipPromiseAll_cons (pk : String → LB) (pj : String → Option LB)
    (e : String × String) (es : List (String × String)) :
    zipPromiseAll pk pj (e :: es)
      = zipJoinStep (zipEntryBounds pk pj e) (zipPromiseAll pk pj es) := by
  simp [zipPromiseAll]

theorem zipPromiseAll_ok_of_parses (pk : String → LB) (pj : String → Option LB)
    (entries : List (String × String))
    (hok : ∀ e ∈ entries, strEndsWith e.1 ".kml" = false →
      (strEndsWith e.1 ".geojson" || strEndsWith e.1 ".json") = true → (pj e.2).isSome) :
    zipPromiseAll pk pj entries = .ok (entries.map (entryOpt pk pj)) := by
  induction entries with
  | nil => rfl
  | cons e es ih =>
    have hes := ih (fun x hx => hok x (List.mem_cons_of_mem _ hx))
    have he : zipEntryBounds pk pj e = .ok (entryOpt pk pj e) := by
      unfold zipEntryBounds entryOpt
      by_cases hk : strEndsWith e.1 ".kml" = true
      · simp [hk]
      · simp only [Bool.not_eq_true] at hk
        by_cases hj : (strEndsWith e.1 ".geojson" || strEndsWith e.1 ".json") = true
        · obtain ⟨b, hb⟩ :=
            Option.isSome_iff_exists.mp (hok e (List.mem_cons_self e es) hk hj)
          simp [hk, hj, hb]
        · simp only [Bool.not_eq_true] at hj
          simp [hk, hj]
    rw [zipPromiseAll_cons, he, hes, List.map_cons]
    rfl

theorem filterMap_entryOpt (pk : String → LB) (pj : String → Option LB)
    (entries : List (String × String)) :
    entries.filterMap (entryOpt pk pj) = recognizedBoundsList pk pj entries := by
  induction entries with
  | nil => rfl
  | cons e es ih =>
    cases hkml : strEndsWith e.1 ".kml" <;>
    cases hgeo : strEndsWith e.1 ".geojson" <;>
    cases hjson : strEndsWith e.1 ".json" <;>
    simp [entryOpt, entryBoundsSpec, recognizedBoundsList, recognizedName,
          List.filter_cons, List.filterMap_cons, hkml, hgeo, hjson, ih]

theorem zipEntryBounds_error (pk : String → LB) (pj : String → Option LB)
    (e : String × String) (hk : strEndsWith e.1 ".kml" = false)
    (hj : (strEndsWith e.1 ".geojson" || strEndsWith e.1 ".json") = true)
    (hbad : pj e.2 = none) :
    zipEntryBounds pk pj e = .error () := by
  simp [zipEntryBounds, hk, hj, hbad]

theorem zipPromiseAll_error_of_mem (pk : String → LB) (pj : String → Option LB)
    {entries : List (String × String)} {e : String × String} (hmem : e ∈ entries)
    (herr : zipEntryBounds pk pj e = .error ()) :
    zipPromiseAll pk pj entries = .error () := by
  induction entries with
  | nil => cases hmem
  | cons a es ih =>
    rcases List.mem_cons.mp hmem with h | h
    · rw [zipPromiseAll_cons, ← h, herr]
      rfl
    · rw [zipPromiseAll_cons, ih h]
      cases zipEntryBounds pk pj a <;> rfl

/-- Claim C1: for every non-empty ring of `[lng, lat]` pairs, the bounds
reduce of `handleDrawCreate` — a single left-to-right fold seeded at
`(+Infinity, +Infinity)` / `(-Infinity, -Infinity)` taking componentwise min
and max — yields a bounding box `[[minLat, minLng], [maxLat, maxLng]]`
(latitude first) whose southwest corner is ≤ its northeast corner
componentwise, and every input coordinate lies within the box inclusively. -/
theorem bounds_reducer_sound (ring : List (ℚ × ℚ)) (h : ring ≠ []) :
    ∃ minLat minLng maxLat maxLng : ℚ,
      aoiBoundsOfRing ring
        = ((XR.fin minLat, XR.fin minLng), (XR.fin maxLat, XR.fin maxLng)) ∧
      minLat ≤ maxLat ∧ minLng ≤ maxLng ∧
      ∀ p ∈ ring, minLng ≤ p.1 ∧ p.1 ≤ maxLng ∧ minLat ≤ p.2 ∧ p.2 ≤ maxLat := by
  cases ring with
  | nil => exact absurd rfl h
  | cons c cs =>
    refine ⟨(cs.foldl stepQ ((c.1, c.2), (c.1, c.2))).1.2,
            (cs.foldl stepQ ((c.1, c.2), (c.1, c.2))).1.1,
            (cs.foldl stepQ ((c.1, c.2), (c.1, c.2))).2.2,
            (cs.foldl stepQ ((c.1, c.2), (c.1, c.2))).2.1, ?_, ?_, ?_, ?_⟩
    · have hf : (c :: cs).foldl boundsStep ((XR.inf, XR.inf), (XR.ninf, XR.ninf))
          = ((XR.fin (cs.foldl stepQ ((c.1, c.2), (c.1, c.2))).1.1,
              XR.fin (cs.foldl stepQ ((c.1, c.2), (c.1, c.2))).1.2),
             (XR.fin (cs.foldl stepQ ((c.1, c.2), (c.1, c.2))).2.1,
              XR.fin (cs.foldl stepQ ((c.1, c.2), (c.1, c.2))).2.2)) := by
        rw [List.foldl_cons,
            show boundsStep ((XR.inf, XR.inf), (XR.ninf, XR.ninf)) c
              = ((XR.fin c.1, XR.fin c.2), (XR.fin c.1, XR.fin c.2)) from rfl]
        exact foldl_boundsStep_fin cs ((c.1, c.2), (c.1, c.2))
      simp only [aoiBoundsOfRing, hf]
    · exact (foldl_stepQ_sw_le_ne cs ((c.1, c.2), (c.1, c.2)) (le_refl _) (le_refl _)).2
    · exact (foldl_stepQ_sw_le_ne cs ((c.1, c.2), (c.1, c.2)) (le_refl _) (le_refl _)).1
    · intro p hp
      rcases List.mem_cons.mp hp with hpc | hpcs
      · obtain ⟨h1, h2, h3, h4⟩ := foldl_stepQ_le_init cs ((c.1, c.2), (c.1, c.2))
        rw [hpc]
        exact ⟨h1, h3, h2, h4⟩
      · obtain ⟨h1, h2, h3, h4⟩ := foldl_stepQ_mem cs ((c.1, c.2), (c.1, c.2)) p hpcs
        exact ⟨h1, h3, h2, h4⟩

/-- Witness for C1: the theorem applied to the concrete two-point ring
`[(1, 2), (3, 0)]`. -/
theorem bounds_reducer_sound_witness :
    ∃ minLat minLng maxLat maxLng : ℚ,
      aoiBoundsOfRing [((1 : ℚ), (2 : ℚ)), ((3 : ℚ), (0 : ℚ))]
        = ((XR.fin minLat, XR.fin minLng), (XR.fin maxLat, XR.fin maxLng)) ∧
      minLat ≤ maxLat ∧ minLng ≤ maxLng ∧
      ∀ p ∈ [((1 : ℚ), (2 : ℚ)), ((3 : ℚ), (0 : ℚ))],
        minLng ≤ p.1 ∧ p.1 ≤ maxLng ∧ minLat ≤ p.2 ∧ p.2 ≤ maxLat :=
  bounds_reducer_sound _ (List.cons_ne_nil _ _)

/-- Claim C8: for every non-empty ring and every permutation of its
coordinates, the bounds reduce of `handleDrawCreate` returns the same
bounding box (the min/max fold is invariant under reordering). -/
theorem bounds_reducer_perm_invariant (r1 r2 : List (ℚ × ℚ)) (_hne : r1 ≠ [])
    (h : r1.Perm r2) : aoiBoundsOfRing r1 = aoiBoundsOfRing r2 := by
  simp only [aoiBoundsOfRing, foldl_boundsStep_perm h]

/-- Witness for C8: the theorem applied to the concrete ring
`[(1, 2), (3, 4)]` and its transposition. -/
theorem bounds_reducer_perm_invariant_witness :
    aoiBoundsOfRing [((1 : ℚ), (2 : ℚ)), ((3 : ℚ), (4 : ℚ))]
      = aoiBoundsOfRing [((3 : ℚ), (4 : ℚ)), ((1 : ℚ), (2 : ℚ))] :=
  bounds_reducer_perm_invariant _ _ (List.cons_ne_nil _ _) (List.Perm.swap _ _ _)

/-- Counterexample to claim C3: drawing a shape whose outer ring is empty
raises no `InvalidGeometry` error at all — `reduce` with an initial value
simply returns its seeds, and `handleDrawCreate` silently installs the
degenerate box `[[Infinity, Infinity], [-Infinity, -Infinity]]` (southwest
components above the northeast ones) as the AOI bounds. -/
theorem empty_ring_installs_degenerate_box :
    handleDrawCreate initialState ⟨[[]]⟩
      = { initialState with
          aoiBounds := some ((XR.inf, XR.inf), (XR.ninf, XR.ninf)),
          geojson := some ⟨[[]]⟩ } := rfl

/-- Claim C3 (amended): applied to an empty ring, the bounds reducer does not
fail — it produces the degenerate bounding box
`[[Infinity, Infinity], [-Infinity, -Infinity]]` (the fold's untouched seeds,
latitude first) and installs it as the AOI bounds. -/
theorem empty_ring_degenerate_box (s : SessionState) (rest : List (List (ℚ × ℚ))) :
    (handleDrawCreate s ⟨[] :: rest⟩).aoiBounds
      = some ((XR.inf, XR.inf), (XR.ninf, XR.ninf)) := rfl

/-- Counterexample to claim C2: in the trace `cexS0` (AOI = ring `(0,0)`,
fetch dispatched) → `cexS1` (AOI replaced by ring `(5,5)` while the fetch is
in flight) → `cexS2` (fetch completes successfully), a request was dispatched
in `cexS0`, yet the result is displayed at the bounds of the *new* AOI
`(5,5)`, which differ from the bounds current when the request was sent —
the displayed bounds do change when the AOI changes after dispatch. -/
theorem imagery_bounds_follow_later_aoi :
    (∃ r, getImage [⟨"n", "i", "s"⟩] cexS0 = .call r) ∧
    displayedOverlay cexS2
      = some ("blob:img", aoiBoundsOfRing [((5 : ℚ), (5 : ℚ))]) ∧
    cexS0.aoiBounds ≠ some (aoiBoundsOfRing [((5 : ℚ), (5 : ℚ))]) := by
  refine ⟨⟨_, rfl⟩, rfl, by decide⟩

/-- Claim C2 (amended): on a successful fetch only `imageUrl` is written; the
resulting image is displayed at the AOI bounds current at display time (the
live `aoiBounds` state), not at the bounds captured when the request was
sent, so changing the AOI after dispatch moves the displayed result. -/
theorem imagery_displayed_at_completion_bounds (s : SessionState) (u : String) (b : BBox)
    (hu : u ≠ "") (hb : s.aoiBounds = some b) :
    displayedOverlay (applyFetchOutcome s (.response true u)) = some (u, b) ∧
    (applyFetchOutcome s (.response true u)).aoiBounds = s.aoiBounds := by
  constructor
  · simp [displayedOverlay, applyFetchOutcome, ImageLayer, hu, hb]
  · rfl

/-- Witness for the amended C2: the successful completion applied in state
`cexS1` displays at `cexS1`'s bounds. -/
theorem imagery_displayed_at_completion_bounds_witness :
    displayedOverlay (applyFetchOutcome cexS1 (.response true "blob:img"))
      = some ("blob:img", aoiBoundsOfRing [((5 : ℚ), (5 : ℚ))]) ∧
    (applyFetchOutcome cexS1 (.response true "blob:img")).aoiBounds = cexS1.aoiBounds :=
  imagery_displayed_at_completion_bounds cexS1 "blob:img"
    (aoiBoundsOfRing [((5 : ℚ), (5 : ℚ))]) (by decide) rfl

/-- Claim C7: an imagery fetch triggered with no AOI present fails fast in
the guard of `getImage` (App.jsx lines 57-61) and issues zero calls to the
imagery-provider transport. -/
theorem no_aoi_no_network_call (catalog : List EvalscriptEntry) (s : SessionState)
    (h : s.geojson = none) :
    getImage catalog s = .noCall ∧ dispatchCalls (getImage catalog s) = [] := by
  unfold getImage
  rw [h]
  exact ⟨rfl, rfl⟩

/-- Witness for C7: the initial state has no AOI. -/
theorem no_aoi_no_network_call_witness :
    getImage [] initialState = .noCall ∧ dispatchCalls (getImage [] initialState) = [] :=
  no_aoi_no_network_call [] initialState rfl

/-- Claim C9: on any failure of the imagery fetch (guard failure — missing
AOI or missing credential —, transport error, or non-ok HTTP status), the
displayed image URL, the AOI bounds and the geometry are all left unchanged:
a failed `getImage` mutates no session state. -/
theorem fetch_failure_preserves_session (catalog : List EvalscriptEntry)
    (s : SessionState) (o : FetchOutcome) (h : fetchFailed catalog s o) :
    (getImageRun catalog s o).imageUrl = s.imageUrl ∧
    (getImageRun catalog s o).aoiBounds = s.aoiBounds ∧
    (getImageRun catalog s o).geojson = s.geojson := by
  have hrun : getImageRun catalog s o = s := by
    unfold getImageRun
    rcases h with h | h | ⟨u, h⟩
    · rw [h]
    · rw [h]
      cases getImage catalog s <;> rfl
    · rw [h]
      cases getImage catalog s <;> rfl
  rw [hrun]
  exact ⟨rfl, rfl, rfl⟩

/-- Witness for C9: a transport error in the initial state. -/
theorem fetch_failure_preserves_session_witness :
    (getImageRun [] initialState .netError).imageUrl = initialState.imageUrl ∧
    (getImageRun [] initialState .netError).aoiBounds = initialState.aoiBounds ∧
    (getImageRun [] initialState .netError).geojson = initialState.geojson :=
  fetch_failure_preserves_session [] initialState .netError (Or.inr (Or.inl rfl))

/-- Claim C6 evaluated at the failing input (part_001 revision): with an AOI
present and the token provider failed (`getToken`'s catch swallowed the
error and returned undefined), `getImage` does NOT fail without a request —
it still issues the POST, with header `Authorization: Bearer undefined`. -/
theorem token_failure_still_sends_request :
    getImage001 [] { initialState with geojson := some ⟨[[((0 : ℚ), (0 : ℚ))]]⟩ } none
      = .call (buildProcessRequest []
          { initialState with geojson := some ⟨[[((0 : ℚ), (0 : ℚ))]]⟩ }
          ⟨[[((0 : ℚ), (0 : ℚ))]]⟩ "undefined") ∧
    (buildProcessRequest [] { initialState with geojson := some ⟨[[((0 : ℚ), (0 : ℚ))]]⟩ }
        ⟨[[((0 : ℚ), (0 : ℚ))]]⟩ "undefined").bearer = "Bearer undefined" :=
  ⟨rfl, rfl⟩

/-- Counterexample to claim C4: an archive holding only `notes.txt` is not
reported as a `NoRecognizedEntries` failure — the filtered bounds list is
empty but truthy in JavaScript, so the branch proceeds to call `fitBounds`
on the empty array exactly as on the success path; no error outcome occurs
(the session state is indeed left unchanged). -/
theorem archive_no_recognized_entries_cex :
    handleFileSubmitZip (fun _ => default) (fun _ => none) [("notes.txt", "hello")]
        initialState
      = (initialState, .fitEmptyList) ∧ ZipResult.fitEmptyList ≠ ZipResult.err :=
  ⟨by decide, by decide⟩

/-- Claim C4 (amended): for every ZIP archive in which no entry name ends in
`.kml`, `.geojson` or `.json`, the previously current AOI (geometry and
bounds state) is left unchanged, but no `NoRecognizedEntries` error is
reported: the branch falls through and hands the empty (truthy) bounds array
to `fitBounds`. -/
theorem archive_no_recognized_entries (pk : String → LB) (pj : String → Option LB)
    (entries : List (String × String)) (s : SessionState)
    (h : ∀ e ∈ entries, recognizedName e.1 = false) :
    handleFileSubmitZip pk pj entries s = (s, .fitEmptyList) := by
  have hok : ∀ e ∈ entries, strEndsWith e.1 ".kml" = false →
      (strEndsWith e.1 ".geojson" || strEndsWith e.1 ".json") = true → (pj e.2).isSome := by
    intro e he _ hj
    have hre := h e he
    rcases Bool.or_eq_true_iff.mp hj with hg | hd
    · simp [recognizedName, hg] at hre
    · simp [recognizedName, hd] at hre
  have hfil : entries.filter (fun e => recognizedName e.1) = [] :=
    filter_eq_nil_of_none _ _ (fun e he => h e he)
  unfold handleFileSubmitZip
  rw [zipPromiseAll_ok_of_parses pk pj entries hok]
  have hmap : entries.filterMap (entryOpt pk pj) = [] := by
    rw [filterMap_entryOpt]
    unfold recognizedBoundsList
    rw [hfil]
    rfl
  simp [hmap, reduceZipBounds]

/-- Witness for the amended C4: the archive `[notes.txt]`. -/
theorem archive_no_recognized_entries_witness :
    handleFileSubmitZip (fun _ => default) (fun _ => none) [("notes.txt", "hello")]
        initialState
      = (initialState, .fitEmptyList) :=
  archive_no_recognized_entries _ _ _ _ (by decide)

/-- Counterexample to claim C5 as frozen: the claim says the *final AOI
bounds* equal the union of the recognized entries' bounds, but on the archive
`[a.kml (B1), notes.txt, b.geojson (B2)]` submitted over a previously drawn
AOI, the whole session state — in particular `aoiBounds` and `geojson` — is
returned unchanged (the final AOI bounds are still the pre-archive draw's
box, not the union); the union `B1.extend B2` exists but is only the
argument handed to `fitBounds` (a map-view action), never installed as AOI
state — the zip branch calls neither `setAoiBounds` nor `setGeojson`
(App.jsx lines 164-195). -/
theorem archive_zip_no_aoi_update_cex :
    (handleFileSubmitZip (fun _ => (⟨0, 0, 1, 1⟩ : LB)) (fun _ => some (⟨2, 2, 3, 3⟩ : LB))
        [("a.kml", "ka"), ("notes.txt", "n"), ("b.geojson", "gb")]
        (handleDrawCreate initialState ⟨[[((0 : ℚ), (0 : ℚ))]]⟩)).1
      = handleDrawCreate initialState ⟨[[((0 : ℚ), (0 : ℚ))]]⟩ ∧
    (handleFileSubmitZip (fun _ => (⟨0, 0, 1, 1⟩ : LB)) (fun _ => some (⟨2, 2, 3, 3⟩ : LB))
        [("a.kml", "ka"), ("notes.txt", "n"), ("b.geojson", "gb")]
        (handleDrawCreate initialState ⟨[[((0 : ℚ), (0 : ℚ))]]⟩)).1.aoiBounds
      = some (aoiBoundsOfRing [((0 : ℚ), (0 : ℚ))]) ∧
    (handleFileSubmitZip (fun _ => (⟨0, 0, 1, 1⟩ : LB)) (fun _ => some (⟨2, 2, 3, 3⟩ : LB))
        [("a.kml", "ka"), ("notes.txt", "n"), ("b.geojson", "gb")]
        (handleDrawCreate initialState ⟨[[((0 : ℚ), (0 : ℚ))]]⟩)).2
      = .fitBox ((⟨0, 0, 1, 1⟩ : LB).extend (⟨2, 2, 3, 3⟩ : LB)) :=
  ⟨by decide, by decide, by decide⟩

/-- Claim C5 (amended): for every ZIP archive with at least one recognized
entry (and whose recognized `.geojson`/`.json` entries all parse), the
archive channel parses exactly the entries whose names end in `.kml`,
`.geojson` or `.json`, ignores all other entries without error, and the
bounds handed to `fitBounds` equal the successive pairwise union (`extend`)
of the recognized entries' bounds in encounter order of the archive's entry
listing; however no AOI update occurs — the `aoiBounds` and `geojson` state
are left unchanged (the zip branch never calls their setters). -/
theorem archive_bounds_union_in_order (pk : String → LB) (pj : String → Option LB)
    (entries : List (String × String)) (s : SessionState) (b : LB) (rest : List LB)
    (hok : ∀ e ∈ entries, strEndsWith e.1 ".kml" = false →
      (strEndsWith e.1 ".geojson" || strEndsWith e.1 ".json") = true → (pj e.2).isSome)
    (hrec : recognizedBoundsList pk pj entries = b :: rest) :
    handleFileSubmitZip pk pj entries s = (s, .fitBox (rest.foldl LB.extend b)) ∧
    (handleFileSubmitZip pk pj entries s).1.aoiBounds = s.aoiBounds ∧
    (handleFileSubmitZip pk pj entries s).1.geojson = s.geojson := by
  have hmain : handleFileSubmitZip pk pj entries s = (s, .fitBox (rest.foldl LB.extend b)) := by
    unfold handleFileSubmitZip
    rw [zipPromiseAll_ok_of_parses pk pj entries hok]
    simp [filterMap_entryOpt, hrec, reduceZipBounds]
  exact ⟨hmain, by rw [hmain], by rw [hmain]⟩

/-- Witness for the amended C5: the archive `[a.kml (B1), notes.txt,
b.geojson (B2)]` hands the union of B1 and B2 to `fitBounds`, ignoring
`notes.txt`, and leaves the AOI state untouched. -/
theorem archive_bounds_union_in_order_witness :
    (handleFileSubmitZip (fun _ => (⟨0, 0, 1, 1⟩ : LB)) (fun _ => some (⟨2, 2, 3, 3⟩ : LB))
        [("a.kml", "ka"), ("notes.txt", "n"), ("b.geojson", "gb")] initialState
      = (initialState,
         .fitBox (([(⟨2, 2, 3, 3⟩ : LB)]).foldl LB.extend (⟨0, 0, 1, 1⟩ : LB)))) ∧
    (handleFileSubmitZip (fun _ => (⟨0, 0, 1, 1⟩ : LB)) (fun _ => some (⟨2, 2, 3, 3⟩ : LB))
        [("a.kml", "ka"), ("notes.txt", "n"), ("b.geojson", "gb")]
        initialState).1.aoiBounds = initialState.aoiBounds ∧
    (handleFileSubmitZip (fun _ => (⟨0, 0, 1, 1⟩ : LB)) (fun _ => some (⟨2, 2, 3, 3⟩ : LB))
        [("a.kml", "ka"), ("notes.txt", "n"), ("b.geojson", "gb")]
        initialState).1.geojson = initialState.geojson :=
  archive_bounds_union_in_order _ _ _ _ _ _ (by decide) (by decide)

/-- Claim C10: if any recognized `.json`/`.geojson` entry of the archive has
content that `JSON.parse` rejects, that entry's promise rejects, the
`Promise.all` join rejects, and no bounds from any entry — including
successfully parsed ones — are applied: the whole archive operation aborts
(`ZipResult.err`, no `fitBounds`) with the session state unchanged. -/
theorem archive_malformed_entry_aborts (pk : String → LB) (pj : String → Option LB)
    (entries : List (String × String)) (s : SessionState) (e : String × String)
    (hmem : e ∈ entries)
    (hk : strEndsWith e.1 ".kml" = false)
    (hj : (strEndsWith e.1 ".geojson" || strEndsWith e.1 ".json") = true)
    (hbad : pj e.2 = none) :
    handleFileSubmitZip pk pj entries s = (s, .err) := by
  unfold handleFileSubmitZip
  rw [zipPromiseAll_error_of_mem pk pj hmem (zipEntryBounds_error pk pj e hk hj hbad)]

/-- Witness for C10: an archive with a good `.kml`, a good `.json` and a
malformed `.json` entry aborts wholesale. -/
theorem archive_malformed_entry_aborts_witness :
    handleFileSubmitZip (fun _ => (⟨0, 0, 1, 1⟩ : LB))
        (fun t => if t = "good" then some (⟨2, 2, 3, 3⟩ : LB) else none)
        [("a.kml", "ka"), ("ok.json", "good"), ("bad.json", "oops")] initialState
      = (initialState, .err) :=
  archive_malformed_entry_aborts _ _ _ _ ("bad.json", "oops")
    (by decide) (by decide) (by decide) (by decide)
